import Mathlib

/-!
Verification of the go-sundheit health-check registry core (`health.go`).

The registry keeps two maps keyed by check name: the latest `Result` per
check and the live `checkTask` per check. Go maps are embedded as
association lists with `lookupA` / `insertA` / `eraseA`; Go `time.Time`
and `time.Duration` become `Nat`; a Go `error` becomes `Option String`
(`none` = nil). Locks, goroutines and channels are synchronization
devices with no effect on the per-operation state transformation, so each
registry operation is embedded as a pure function on `HealthState`.
-/

namespace GoSundheit

/-- Association-list lookup, embedding a Go map read `m[k]`. -/
def lookupA {α : Type} (m : List (String × α)) (k : String) : Option α :=
  match m with
  | [] => none
  | (k1, v1) :: rest => if k1 = k then some v1 else lookupA rest k

/-- Association-list insert-or-replace, embedding a Go map write `m[k] = v`. -/
def insertA {α : Type} (m : List (String × α)) (k : String) (v : α) :
    List (String × α) :=
  match m with
  | [] => [(k, v)]
  | (k1, v1) :: rest => if k1 = k then (k, v) :: rest else (k1, v1) :: insertA rest k v

/-- Association-list removal, embedding Go `delete(m, k)`. -/
def eraseA {α : Type} (m : List (String × α)) (k : String) : List (String × α) :=
  match m with
  | [] => []
  | (k1, v1) :: rest => if k1 = k then eraseA rest k else (k1, v1) :: eraseA rest k

/-- Result of one health-check execution, from the `Result` struct: details,
optional error, timestamp, duration, failure-streak length and streak onset. -/
structure Result where
  Details : String
  Error : Option String
  Timestamp : Nat
  Duration : Nat
  ContiguousFailures : Nat
  TimeOfFirstFailure : Option Nat
  deriving Repr, DecidableEq

/-- Modelled from the spec: `Result.IsHealthy` lives in the repository's
`result.go`, which is not under src/; the spec states
`IsHealthy(result) := result.error == nil`. -/
def Result.IsHealthy (r : Result) : Bool := r.Error.isNone

/-- Modelled from the spec: `newMarshalableError` lives outside src/; the spec
states the error is wrapped into a marshalable form carrying the same
message, and nil stays nil. -/
def newMarshalableError (err : Option String) : Option String :=
  match err with
  | none => none
  | some m => some m

/-- Modelled from the spec: the sentinel message constant is declared outside
src/; the spec calls it a sentinel "not yet checked" message. Its exact text
is irrelevant to every claim. -/
def initialResultMsg : String := "not yet checked"

/-- Possible behaviours of one invocation of a registered check's work
function: a healthy outcome, a controlled failure, or an abnormal fault
(a panic rather than a returned error). -/
inductive CheckOutcome where
  | ok (details : String)
  | checkFailed (details : String) (msg : String)
  | fault (msg : String)
  deriving Repr, DecidableEq

/-- A registered check: its stable name and the behaviour of its work
function, from the `Check` interface contract. -/
structure Check where
  Name : String
  ExecuteResult : CheckOutcome
  deriving Repr, DecidableEq

/-- Per-registration execution state, from the `checkTask` struct; the stop
channel and ticker are synchronization devices and carry no map state. -/
structure checkTask where
  check : Check
  deriving Repr, DecidableEq

/-- Per-registration configuration, from the `Config` struct; `Check` is a
nilable interface value, hence `Option`. -/
structure Config where
  Check : Option Check
  InitiallyPassing : Bool
  deriving Repr, DecidableEq

/-- The registry's shared state: the latest-result map and the live-task
map, from the `health` struct (listeners and the lock are omitted: listeners
are passive observers and the lock only serializes these transformations). -/
structure HealthState where
  results : List (String × Result)
  checkTasks : List (String × checkTask)
  deriving Repr, DecidableEq

/-- Failure-streak bookkeeping from `health.updateResult`: build the new
`Result` from the outcome, derive `ContiguousFailures` and
`TimeOfFirstFailure` from the previous entry when the outcome is unhealthy,
store it, and return it. -/
def updateResult (results : List (String × Result)) (name : String)
    (details : String) (checkDuration : Nat) (err : Option String) (t : Nat) :
    List (String × Result) × Result :=
  let prevLookup := lookupA results name
  let base : Result :=
    { Details := details
      Error := newMarshalableError err
      Timestamp := t
      Duration := checkDuration
      ContiguousFailures := 0
      TimeOfFirstFailure := none }
  let result : Result :=
    if base.IsHealthy then base
    else
      match prevLookup with
      | some prevResult =>
          if prevResult.IsHealthy then
            { base with
                ContiguousFailures := prevResult.ContiguousFailures + 1
                TimeOfFirstFailure := some t }
          else
            { base with
                ContiguousFailures := prevResult.ContiguousFailures + 1
                TimeOfFirstFailure := prevResult.TimeOfFirstFailure }
      | none =>
          { base with ContiguousFailures := 1, TimeOfFirstFailure := some t }
  (insertA results name result, result)

/-- Task creation from `health.createCheckTask`: build the task and store it
under the check's name. -/
def createCheckTask (tasks : List (String × checkTask)) (c : Check) :
    List (String × checkTask) × checkTask :=
  let task : checkTask := { check := c }
  (insertA tasks c.Name task, task)

/-- Registration from `health.RegisterCheck`: reject a nil check or empty
name, otherwise record the initial (failing unless `InitiallyPassing`)
result via `updateResult` and create the task. Returns the Go error and the
resulting state (unchanged on error). -/
def RegisterCheck (s : HealthState) (cfg : Config) (now : Nat) :
    Option String × HealthState :=
  match cfg.Check with
  | none => (some "misconfigured check", s)
  | some c =>
      if c.Name = "" then (some "misconfigured check", s)
      else
        let initialErr : Option String :=
          if cfg.InitiallyPassing then none else some initialResultMsg
        let updated := updateResult s.results c.Name initialResultMsg 0 initialErr now
        let created := createCheckTask s.checkTasks c
        (none, { results := updated.1, checkTasks := created.1 })

/-- Stop-cleanup from `health.stopCheckTask`: under the same critical
section, delete the name from both maps. -/
def stopCheckTask (s : HealthState) (name : String) : HealthState :=
  { s with
      results := eraseA s.results name
      checkTasks := eraseA s.checkTasks name }

/-- Modelled from the spec: `checkTask.execute` lives in the repository's
`check_task.go`, which is not under src/; the spec (§7) states an abnormal
fault during the check must be contained per-execution and become a failing
result rather than escape. An `ok` outcome yields a nil error, a controlled
failure yields its error, and a contained fault yields its message as the
error. The duration measured around the call is passed in. -/
def checkTask.execute (task : checkTask) (dur : Nat) : String × Nat × Option String :=
  match task.check.ExecuteResult with
  | .ok details => (details, dur, none)
  | .checkFailed details msg => (details, dur, some msg)
  | .fault msg => ("", dur, some msg)

/-- One execution from `health.checkAndUpdateResult`: run the check and
commit the outcome through `updateResult`. -/
def checkAndUpdateResult (s : HealthState) (task : checkTask) (dur : Nat)
    (checkTime : Nat) : HealthState :=
  let executed := task.execute dur
  { s with
      results := (updateResult s.results task.check.Name executed.1
        executed.2.1 executed.2.2 checkTime).1 }

/-- One loop step from `health.runCheckOrStop`: the `select` observes either
the pending stop signal (clean up and report loop exit) or the timer (run
the check and report loop continuation); `stopRequested` records which
branch fires. -/
def runCheckOrStop (s : HealthState) (task : checkTask) (stopRequested : Bool)
    (dur t : Nat) : HealthState × Bool :=
  if stopRequested then (stopCheckTask s task.check.Name, false)
  else (checkAndUpdateResult s task dur t, true)

/-- Modelled from the spec: `allHealthy` lives outside src/; the spec states
`isHealthy()` is true iff every stored value has `error == nil`. -/
def allHealthy (results : List (String × Result)) : Bool :=
  results.all fun p => p.2.IsHealthy

/-- Snapshot read from `health.Results`: a full copy of the result map (a
pure value is its own defensive copy) and the aggregate conjunction of
`IsHealthy` accumulated exactly as the Go loop does. -/
def ResultsOp (s : HealthState) : List (String × Result) × Bool :=
  (s.results, s.results.foldl (fun healthy p => healthy && p.2.IsHealthy) true)

/-- Aggregate read from `health.IsHealthy`. -/
def IsHealthyOp (s : HealthState) : Bool := allHealthy s.results

/-- One execution outcome delivered to `updateResult` for a fixed check
name: details, measured duration, optional error and timestamp. -/
structure Outcome where
  details : String
  duration : Nat
  err : Option String
  time : Nat
  deriving Repr, DecidableEq

/-- Record a sequence of execution outcomes for one name through
`updateResult`, starting from an empty result map. -/
def runOutcomes (name : String) (os : List Outcome) : List (String × Result) :=
  os.foldl (fun m o => (updateResult m name o.details o.duration o.err o.time).1) []

/-- The maximal suffix of consecutive failing outcomes ending at the latest
one. -/
def failStreak (os : List Outcome) : List Outcome :=
  os.foldl (fun acc o => if o.err.isSome then acc ++ [o] else []) []

/-- The stored-result invariant: the failure counter, the error and the
streak-onset timestamp are jointly present or jointly absent. -/
def ResultInv (r : Result) : Prop :=
  (0 < r.ContiguousFailures ↔ r.Error ≠ none) ∧
  (r.Error ≠ none ↔ r.TimeOfFirstFailure ≠ none)

/-- The map-wide invariant: every stored result satisfies `ResultInv`. -/
def mapInv (m : List (String × Result)) : Prop :=
  ∀ k r, lookupA m k = some r → ResultInv r

/-- The two registry maps hold exactly the same key set. -/
def keysMatch (s : HealthState) : Prop :=
  ∀ k, (lookupA s.results k).isSome = (lookupA s.checkTasks k).isSome

theorem lookupA_insertA_self {α : Type} (m : List (String × α)) (k : String) (v : α) :
    lookupA (insertA m k v) k = some v := by
  induction m with
  | nil => simp [insertA, lookupA]
  | cons hd tl ih =>
    obtain ⟨k1, v1⟩ := hd
    by_cases hk : k1 = k
    · simp [insertA, lookupA, hk]
    · simp [insertA, lookupA, hk, ih]

theorem lookupA_insertA_ne {α : Type} (m : List (String × α)) (k k1 : String) (v : α)
    (hne : k ≠ k1) : lookupA (insertA m k v) k1 = lookupA m k1 := by
  induction m with
  | nil => simp [insertA, lookupA, hne]
  | cons hd tl ih =>
    obtain ⟨k2, v2⟩ := hd
    by_cases hk : k2 = k
    · subst hk
      simp [insertA, lookupA, hne]
    · simp [insertA, lookupA, hk, ih]

theorem lookupA_eraseA_self {α : Type} (m : List (String × α)) (k : String) :
    lookupA (eraseA m k) k = none := by
  induction m with
  | nil => simp [eraseA, lookupA]
  | cons hd tl ih =>
    obtain ⟨k1, v1⟩ := hd
    by_cases hk : k1 = k
    · simp [eraseA, hk, ih]
    · simp [eraseA, lookupA, hk, ih]

theorem lookupA_eraseA_ne {α : Type} (m : List (String × α)) (k k1 : String)
    (hne : k ≠ k1) : lookupA (eraseA m k) k1 = lookupA m k1 := by
  induction m with
  | nil => simp [eraseA]
  | cons hd tl ih =>
    obtain ⟨k2, v2⟩ := hd
    by_cases hk : k2 = k
    · subst hk
      simp [eraseA, lookupA, hne, ih]
    · simp [eraseA, lookupA, hk, ih]

/-- The result `updateResult` returns is exactly the one it stores under
`name`. -/
theorem updateResult_lookup (m : List (String × Result)) (name details : String)
    (dur : Nat) (err : Option String) (t : Nat) :
    lookupA (updateResult m name details dur err t).1 name =
      some (updateResult m name details dur err t).2 := by
  simp only [updateResult]
  exact lookupA_insertA_self ..

/-- Entries under other names are untouched by `updateResult`. -/
theorem updateResult_lookup_ne (m : List (String × Result)) (name details : String)
    (dur : Nat) (err : Option String) (t : Nat) (k : String) (hne : name ≠ k) :
    lookupA (updateResult m name details dur err t).1 k = lookupA m k := by
  simp only [updateResult]
  exact lookupA_insertA_ne _ _ _ _ hne

/-- Wrapping preserves nil-ness and the message. -/
theorem newMarshalableError_eq (err : Option String) :
    newMarshalableError err = err := by
  cases err <;> rfl

/-- The returned result always carries the new details, wrapped error,
timestamp and duration, in every branch of `updateResult`. -/
theorem updateResult_base_fields (m : List (String × Result)) (name details : String)
    (dur : Nat) (err : Option String) (t : Nat) :
    (updateResult m name details dur err t).2.Details = details ∧
    (updateResult m name details dur err t).2.Error = err ∧
    (updateResult m name details dur err t).2.Timestamp = t ∧
    (updateResult m name details dur err t).2.Duration = dur := by
  simp only [updateResult, newMarshalableError_eq]
  split
  · exact ⟨rfl, rfl, rfl, rfl⟩
  · split
    · split
      · exact ⟨rfl, rfl, rfl, rfl⟩
      · exact ⟨rfl, rfl, rfl, rfl⟩
    · exact ⟨rfl, rfl, rfl, rfl⟩

/-- A healthy outcome resets the streak fields. -/
theorem updateResult_healthy (m : List (String × Result)) (name details : String)
    (dur : Nat) (t : Nat) :
    (updateResult m name details dur none t).2.ContiguousFailures = 0 ∧
    (updateResult m name details dur none t).2.TimeOfFirstFailure = none := by
  simp [updateResult, newMarshalableError, Result.IsHealthy]

/-- An unhealthy outcome with no previous entry starts a streak of one. -/
theorem updateResult_unhealthy_no_prev (m : List (String × Result))
    (name details : String) (dur : Nat) (err : Option String) (t : Nat)
    (herr : err ≠ none) (hl : lookupA m name = none) :
    (updateResult m name details dur err t).2.ContiguousFailures = 1 ∧
    (updateResult m name details dur err t).2.TimeOfFirstFailure = some t := by
  obtain ⟨e, rfl⟩ := Option.ne_none_iff_exists.mp herr
  simp [updateResult, newMarshalableError, Result.IsHealthy, hl]

/-- An unhealthy outcome after a healthy previous entry increments that
entry's counter and stamps the new time as streak onset. -/
theorem updateResult_unhealthy_prev_healthy (m : List (String × Result))
    (name details : String) (dur : Nat) (err : Option String) (t : Nat)
    (p : Result) (herr : err ≠ none) (hl : lookupA m name = some p)
    (hp : p.IsHealthy = true) :
    (updateResult m name details dur err t).2.ContiguousFailures =
      p.ContiguousFailures + 1 ∧
    (updateResult m name details dur err t).2.TimeOfFirstFailure = some t := by
  obtain ⟨e, rfl⟩ := Option.ne_none_iff_exists.mp herr
  simp [updateResult, newMarshalableError, Result.IsHealthy, hl,
    Option.isNone_iff_eq_none.mp (by simpa [Result.IsHealthy] using hp)]

/-- An unhealthy outcome after an unhealthy previous entry extends the
streak, keeping its onset time. -/
theorem updateResult_unhealthy_prev_unhealthy (m : List (String × Result))
    (name details : String) (dur : Nat) (err : Option String) (t : Nat)
    (p : Result) (herr : err ≠ none) (hl : lookupA m name = some p)
    (hp : p.IsHealthy = false) :
    (updateResult m name details dur err t).2.ContiguousFailures =
      p.ContiguousFailures + 1 ∧
    (updateResult m name details dur err t).2.TimeOfFirstFailure =
      p.TimeOfFirstFailure := by
  obtain ⟨e, rfl⟩ := Option.ne_none_iff_exists.mp herr
  have hpe : p.Error ≠ none := fun h => by simp [Result.IsHealthy, h] at hp
  simp [updateResult, newMarshalableError, Result.IsHealthy, hl, hp, hpe]

/-- C5: `RegisterCheck` returns an error exactly when the check is nil or
its name is empty, and in that case it leaves the registry state unchanged:
no result stored, no task created. -/
theorem registerCheck_error_iff_no_state_change (s : HealthState) (cfg : Config)
    (now : Nat) :
    ((RegisterCheck s cfg now).1 ≠ none ↔
      (cfg.Check = none ∨ ∃ c, cfg.Check = some c ∧ c.Name = "")) ∧
    ((RegisterCheck s cfg now).1 ≠ none → (RegisterCheck s cfg now).2 = s) := by
  match hc : cfg.Check with
  | none => simp [RegisterCheck, hc]
  | some c =>
    by_cases hn : c.Name = "" <;> simp [RegisterCheck, hc, hn]

/-- C6: after a successful registration, the stored initial result for the
check's name is failing exactly when `InitiallyPassing` is false. -/
theorem registerCheck_initial_result (s : HealthState) (cfg : Config) (now : Nat)
    (c : Check) (hc : cfg.Check = some c) (hn : c.Name ≠ "") :
    ∃ r, lookupA (RegisterCheck s cfg now).2.results c.Name = some r ∧
      (cfg.InitiallyPassing = false → r.Error ≠ none) ∧
      (cfg.InitiallyPassing = true → r.Error = none) := by
  have hb := (updateResult_base_fields s.results c.Name initialResultMsg 0
    (if cfg.InitiallyPassing then none else some initialResultMsg) now).2.1
  simp only [RegisterCheck, hc, hn, if_neg hn]
  refine ⟨_, updateResult_lookup .., ?_, ?_⟩ <;> intro hip <;>
    simp [hip] at hb ⊢ <;> simp [hb]

/-- C9: registering a name already present in the task map succeeds (no
uniqueness error) and overwrites the task entry with the new task. -/
theorem registerCheck_duplicate_name_overwrites (s : HealthState) (cfg : Config)
    (now : Nat) (c : Check) (oldTask : checkTask) (hc : cfg.Check = some c)
    (hn : c.Name ≠ "") (hold : lookupA s.checkTasks c.Name = some oldTask) :
    (RegisterCheck s cfg now).1 = none ∧
    lookupA (RegisterCheck s cfg now).2.checkTasks c.Name =
      some { check := c } := by
  simp only [RegisterCheck, hc, hn, if_neg hn, createCheckTask]
  exact ⟨rfl, lookupA_insertA_self ..⟩

/-- Accumulating conjunction over a list, the way the Go loop in `Results`
does, agrees with `List.all`. -/
theorem foldl_and_eq_all (l : List (String × Result)) (b : Bool) :
    l.foldl (fun healthy p => healthy && p.2.IsHealthy) b =
      (b && l.all fun p => p.2.IsHealthy) := by
  induction l generalizing b with
  | nil => simp
  | cons hd tl ih => simp [ih, Bool.and_assoc]

/-- C3: `IsHealthyOp` is true exactly when every stored result has a nil
error (vacuously for an empty registry), and it coincides with the healthy
component that `ResultsOp` computes on the same state. -/
theorem isHealthy_iff_all_results_healthy (s : HealthState) :
    IsHealthyOp s = (ResultsOp s).2 ∧
    (IsHealthyOp s = true ↔ ∀ p ∈ (ResultsOp s).1, p.2.Error = none) := by
  constructor
  · simp [IsHealthyOp, ResultsOp, allHealthy, foldl_and_eq_all]
  · simp [IsHealthyOp, ResultsOp, allHealthy, List.all_eq_true, Result.IsHealthy,
      Option.isNone_iff_eq_none]

/-- C7: the two registry maps keep equal key sets: registration (error or
success) preserves the match, stop-cleanup preserves it while deleting the
name from both maps in the same critical section. -/
theorem results_and_tasks_keys_match (s : HealthState) (cfg : Config) (now : Nat)
    (name : String) (h : keysMatch s) :
    keysMatch (RegisterCheck s cfg now).2 ∧
    keysMatch (stopCheckTask s name) ∧
    lookupA (stopCheckTask s name).results name = none ∧
    lookupA (stopCheckTask s name).checkTasks name = none := by
  refine ⟨?_, ?_, ?_, ?_⟩
  · match hc : cfg.Check with
    | none => simpa [RegisterCheck, hc] using h
    | some c =>
      by_cases hn : c.Name = ""
      · simpa [RegisterCheck, hc, hn] using h
      · intro k
        by_cases hk : c.Name = k
        · subst hk
          simp [RegisterCheck, hc, hn, createCheckTask, updateResult_lookup,
            lookupA_insertA_self]
        · simpa [RegisterCheck, hc, hn, createCheckTask,
            updateResult_lookup_ne _ _ _ _ _ _ _ hk,
            lookupA_insertA_ne _ _ _ _ hk] using h k
  · intro k
    by_cases hk : name = k
    · subst hk
      simp [stopCheckTask, lookupA_eraseA_self]
    · simpa [stopCheckTask, lookupA_eraseA_ne _ _ _ hk] using h k
  · simp [stopCheckTask, lookupA_eraseA_self]
  · simp [stopCheckTask, lookupA_eraseA_self]

/-- C8: a check whose execution faults abnormally still yields a loop step
that signals continuation (the loop is not terminated), with the fault
recorded as a failing result under the check's name. -/
theorem fault_contained_as_failing_result (s : HealthState) (task : checkTask)
    (dur t : Nat) (msg : String)
    (hf : task.check.ExecuteResult = .fault msg) :
    (runCheckOrStop s task false dur t).2 = true ∧
    ∃ r, lookupA (runCheckOrStop s task false dur t).1.results
        task.check.Name = some r ∧ r.IsHealthy = false := by
  refine ⟨rfl, ?_⟩
  have hb := (updateResult_base_fields s.results task.check.Name "" dur
    (some msg) t).2.1
  have hstep : (runCheckOrStop s task false dur t).1.results =
      (updateResult s.results task.check.Name "" dur (some msg) t).1 := by
    simp [runCheckOrStop, checkAndUpdateResult, checkTask.execute, hf]
  refine ⟨(updateResult s.results task.check.Name "" dur (some msg) t).2, ?_, ?_⟩
  · rw [hstep]
    exact updateResult_lookup ..
  · simp [Result.IsHealthy, hb]

/-- C2: `updateResult` preserves the registry invariant: the result map
stays invariant-respecting, the freshly stored result respects it, and a
result is healthy exactly when its error is nil. Registration stores its
initial result through this same function, so it is covered too. -/
theorem updateResult_preserves_invariant (m : List (String × Result))
    (name details : String) (dur : Nat) (err : Option String) (t : Nat)
    (hinv : mapInv m) :
    mapInv (updateResult m name details dur err t).1 ∧
    ResultInv (updateResult m name details dur err t).2 ∧
    ∀ r : Result, r.IsHealthy = true ↔ r.Error = none := by
  have herr := (updateResult_base_fields m name details dur err t).2.1
  have hnew : ResultInv (updateResult m name details dur err t).2 := by
    match he : err with
    | none =>
      obtain ⟨hcf, htoff⟩ := updateResult_healthy m name details dur t
      exact ⟨by simp [hcf, herr, he], by simp [herr, he, htoff]⟩
    | some e =>
      match hl : lookupA m name with
      | none =>
        obtain ⟨hcf, htoff⟩ :=
          updateResult_unhealthy_no_prev m name details dur (some e) t (by simp) hl
        exact ⟨by simp [hcf, herr], by simp [herr, htoff]⟩
      | some p =>
        match hp : p.IsHealthy with
        | true =>
          obtain ⟨hcf, htoff⟩ := updateResult_unhealthy_prev_healthy m name
            details dur (some e) t p (by simp) hl hp
          exact ⟨by simp [hcf, herr], by simp [herr, htoff]⟩
        | false =>
          obtain ⟨hcf, htoff⟩ := updateResult_unhealthy_prev_unhealthy m name
            details dur (some e) t p (by simp) hl hp
          have hpe : p.Error ≠ none := fun hq => by simp [Result.IsHealthy, hq] at hp
          have hptoff : p.TimeOfFirstFailure ≠ none := ((hinv name p hl).2).mp hpe
          exact ⟨by simp [hcf, herr], by simp [herr, htoff, hptoff]⟩
  refine ⟨?_, hnew, fun r => by simp [Result.IsHealthy, Option.isNone_iff_eq_none]⟩
  intro k r hk
  by_cases hkn : name = k
  · subst hkn
    rw [updateResult_lookup] at hk
    exact (Option.some_inj.mp hk) ▸ hnew
  · rw [updateResult_lookup_ne _ _ _ _ _ _ _ hkn] at hk
    exact hinv k r hk

/-- C4: when an unhealthy outcome is recorded over an invariant-respecting
map, a missing or healthy previous result starts the streak at one with the
new timestamp as onset, and an unhealthy previous result extends its
counter by one keeping its onset. -/
theorem updateResult_streak_cases (m : List (String × Result))
    (name details : String) (dur : Nat) (err : Option String) (t : Nat)
    (herr : err ≠ none) (hinv : mapInv m) :
    ((lookupA m name = none ∨
        ∃ p, lookupA m name = some p ∧ p.IsHealthy = true) →
      (updateResult m name details dur err t).2.ContiguousFailures = 1 ∧
      (updateResult m name details dur err t).2.TimeOfFirstFailure = some t) ∧
    (∀ p, lookupA m name = some p → p.IsHealthy = false →
      (updateResult m name details dur err t).2.ContiguousFailures =
        p.ContiguousFailures + 1 ∧
      (updateResult m name details dur err t).2.TimeOfFirstFailure =
        p.TimeOfFirstFailure) := by
  constructor
  · rintro (hl | ⟨p, hl, hp⟩)
    · exact updateResult_unhealthy_no_prev m name details dur err t herr hl
    · obtain ⟨hcf, htoff⟩ :=
        updateResult_unhealthy_prev_healthy m name details dur err t p herr hl hp
      have hpe : p.Error = none := by
        simpa [Result.IsHealthy, Option.isNone_iff_eq_none] using hp
      have hpcf : p.ContiguousFailures = 0 := by
        by_contra hq
        exact (((hinv name p hl).1).mp (Nat.pos_of_ne_zero hq)) hpe
      simp [hcf, hpcf, htoff]
  · intro p hl hp
    exact updateResult_unhealthy_prev_unhealthy m name details dur err t p herr hl hp

/-- C10: with `InitiallyPassing` false and no prior result, the sentinel
result stored at registration already counts as the first failure of the
streak — counter one, onset the registration timestamp — so the first
failing real execution brings the counter to two while the onset still
marks registration time. -/
theorem initial_sentinel_counts_in_streak (s : HealthState) (cfg : Config)
    (now : Nat) (c : Check) (d : String) (dur : Nat) (e : Option String)
    (t : Nat) (hc : cfg.Check = some c) (hn : c.Name ≠ "")
    (hip : cfg.InitiallyPassing = false)
    (hnone : lookupA s.results c.Name = none) (he : e ≠ none) :
    ∃ r, lookupA (RegisterCheck s cfg now).2.results c.Name = some r ∧
      r.ContiguousFailures = 1 ∧ r.TimeOfFirstFailure = some now ∧
      ∃ r2, lookupA (updateResult (RegisterCheck s cfg now).2.results
          c.Name d dur e t).1 c.Name = some r2 ∧
        r2.ContiguousFailures = 2 ∧ r2.TimeOfFirstFailure = some now := by
  simp only [RegisterCheck, hc, hn, if_neg hn, hip, Bool.false_eq_true, if_false]
  set m1 := (updateResult s.results c.Name initialResultMsg 0
    (some initialResultMsg) now).1 with hm1
  set r1 := (updateResult s.results c.Name initialResultMsg 0
    (some initialResultMsg) now).2 with hr1
  obtain ⟨hcf1, htoff1⟩ := updateResult_unhealthy_no_prev s.results c.Name
    initialResultMsg 0 (some initialResultMsg) now (by simp) hnone
  have hl1 : lookupA m1 c.Name = some r1 := updateResult_lookup ..
  have hr1err : r1.Error = some initialResultMsg :=
    (updateResult_base_fields s.results c.Name initialResultMsg 0
      (some initialResultMsg) now).2.1
  have hr1unh : r1.IsHealthy = false := by simp [Result.IsHealthy, hr1err]
  obtain ⟨hcf2, htoff2⟩ := updateResult_unhealthy_prev_unhealthy m1 c.Name
    d dur e t r1 he hl1 hr1unh
  exact ⟨r1, hl1, hcf1, htoff1, _, updateResult_lookup .., by rw [hcf2, hcf1],
    by rw [htoff2, htoff1]⟩

/-- Recording one more outcome is one more `updateResult` step. -/
theorem runOutcomes_append (name : String) (os : List Outcome) (o : Outcome) :
    runOutcomes name (os ++ [o]) =
      (updateResult (runOutcomes name os) name o.details o.duration o.err
        o.time).1 := by
  simp [runOutcomes, List.foldl_append]

/-- One more outcome extends the failing suffix or clears it. -/
theorem failStreak_append (os : List Outcome) (o : Outcome) :
    failStreak (os ++ [o]) =
      if o.err.isSome then failStreak os ++ [o] else [] := by
  simp [failStreak, List.foldl_append]

/-- Invariant tying the stored result for a name to the failing suffix of
the outcome sequence recorded so far: the counter is the suffix length, the
onset is the suffix's first timestamp, and healthiness matches an empty
suffix. -/
theorem runOutcomes_streak_invariant (name : String) (os : List Outcome) :
    (os = [] ∧ lookupA (runOutcomes name os) name = none) ∨
    (∃ r, lookupA (runOutcomes name os) name = some r ∧
      r.ContiguousFailures = (failStreak os).length ∧
      r.TimeOfFirstFailure = (failStreak os).head?.map Outcome.time ∧
      (r.IsHealthy = true ↔ failStreak os = [])) := by
  induction os using List.reverseRecOn with
  | nil => exact Or.inl ⟨rfl, rfl⟩
  | append_singleton xs x ih =>
    right
    rw [runOutcomes_append name xs x, failStreak_append xs x]
    match hx : x.err with
    | none =>
      have hif : (if (none : Option String).isSome = true then
          failStreak xs ++ [x] else []) = [] := by simp
      rw [hif]
      obtain ⟨hcf, htoff⟩ :=
        updateResult_healthy (runOutcomes name xs) name x.details x.duration x.time
      have herr := (updateResult_base_fields (runOutcomes name xs) name
        x.details x.duration none x.time).2.1
      exact ⟨_, updateResult_lookup .., by simp [hcf], by simp [htoff],
        by simp [Result.IsHealthy, herr]⟩
    | some e =>
      have hif : (if (some e).isSome = true then
          failStreak xs ++ [x] else []) = failStreak xs ++ [x] := by simp
      rw [hif]
      have herr := (updateResult_base_fields (runOutcomes name xs) name
        x.details x.duration (some e) x.time).2.1
      have hiff : ((updateResult (runOutcomes name xs) name x.details
          x.duration (some e) x.time).2.IsHealthy = true ↔
          failStreak xs ++ [x] = []) := by
        simp [Result.IsHealthy, herr]
      rcases ih with ⟨hxs, hl⟩ | ⟨r0, hl0, hcf0, htoff0, hiff0⟩
      · obtain ⟨hcf, htoff⟩ := updateResult_unhealthy_no_prev
          (runOutcomes name xs) name x.details x.duration (some e) x.time
          (by simp) hl
        subst hxs
        exact ⟨_, updateResult_lookup .., by simp [hcf, failStreak],
          by simp [htoff, failStreak], hiff⟩
      · match hh : r0.IsHealthy with
        | true =>
          have hstreak : failStreak xs = [] := hiff0.mp hh
          obtain ⟨hcf, htoff⟩ := updateResult_unhealthy_prev_healthy
            (runOutcomes name xs) name x.details x.duration (some e) x.time
            r0 (by simp) hl0 hh
          have hr0cf : r0.ContiguousFailures = 0 := by simp [hcf0, hstreak]
          exact ⟨_, updateResult_lookup .., by simp [hcf, hr0cf, hstreak],
            by simp [htoff, hstreak], hiff⟩
        | false =>
          have hstreak : failStreak xs ≠ [] := by
            intro hq
            simp [hiff0.mpr hq] at hh
          obtain ⟨a, t0, hst⟩ := List.exists_cons_of_ne_nil hstreak
          obtain ⟨hcf, htoff⟩ := updateResult_unhealthy_prev_unhealthy
            (runOutcomes name xs) name x.details x.duration (some e) x.time
            r0 (by simp) hl0 hh
          exact ⟨_, updateResult_lookup ..,
            by simp [hcf, hcf0, hst],
            by rw [htoff, htoff0, hst]; simp, hiff⟩

/-- C1: after any nonempty sequence of outcomes recorded for one name
through `updateResult`, the stored result's `ContiguousFailures` is the
length of the maximal suffix of consecutive failing outcomes ending at the
latest one, and `TimeOfFirstFailure` is the timestamp of the first outcome
of that suffix — `none` when the suffix is empty, i.e. when the latest
outcome is healthy. -/
theorem contiguousFailures_eq_failing_suffix (name : String)
    (os : List Outcome) (hne : os ≠ []) :
    ∃ r, lookupA (runOutcomes name os) name = some r ∧
      r.ContiguousFailures = (failStreak os).length ∧
      r.TimeOfFirstFailure = (failStreak os).head?.map Outcome.time := by
  rcases runOutcomes_streak_invariant name os with ⟨h, _⟩ | ⟨r, hl, hcf, htoff, _⟩
  · exact absurd h hne
  · exact ⟨r, hl, hcf, htoff⟩

/-- Witness: the failing-suffix characterization evaluated on a concrete
fail/heal/fail outcome sequence. -/
theorem contiguousFailures_suffix_concrete :
    ([⟨"d1", 2, some "boom", 5⟩, ⟨"d2", 3, none, 6⟩,
        ⟨"d3", 1, some "bam", 7⟩] ≠ ([] : List Outcome)) ∧
    ∃ r, lookupA (runOutcomes "a" [⟨"d1", 2, some "boom", 5⟩,
        ⟨"d2", 3, none, 6⟩, ⟨"d3", 1, some "bam", 7⟩]) "a" = some r ∧
      r.ContiguousFailures = (failStreak [⟨"d1", 2, some "boom", 5⟩,
        ⟨"d2", 3, none, 6⟩, ⟨"d3", 1, some "bam", 7⟩]).length ∧
      r.TimeOfFirstFailure = (failStreak [⟨"d1", 2, some "boom", 5⟩,
        ⟨"d2", 3, none, 6⟩, ⟨"d3", 1, some "bam", 7⟩]).head?.map Outcome.time :=
  ⟨by simp, contiguousFailures_eq_failing_suffix "a" _ (by simp)⟩

/-- Witness: invariant preservation evaluated from the empty map with a
concrete failing outcome. -/
theorem updateResult_invariant_concrete :
    mapInv [] ∧
    (mapInv (updateResult [] "a" "d" 1 (some "boom") 3).1 ∧
     ResultInv (updateResult [] "a" "d" 1 (some "boom") 3).2 ∧
     ∀ r : Result, r.IsHealthy = true ↔ r.Error = none) :=
  have hinv : mapInv [] := fun k r h => by simp [lookupA] at h
  ⟨hinv, updateResult_preserves_invariant [] "a" "d" 1 (some "boom") 3 hinv⟩

/-- Witness: the streak case split evaluated from the empty map with a
concrete failing outcome. -/
theorem updateResult_streak_cases_concrete :
    (some "boom" ≠ (none : Option String)) ∧ mapInv [] ∧
    (((lookupA ([] : List (String × Result)) "a" = none ∨
        ∃ p, lookupA ([] : List (String × Result)) "a" = some p ∧
          p.IsHealthy = true) →
      (updateResult [] "a" "d" 1 (some "boom") 3).2.ContiguousFailures = 1 ∧
      (updateResult [] "a" "d" 1 (some "boom") 3).2.TimeOfFirstFailure =
        some 3) ∧
    (∀ p, lookupA ([] : List (String × Result)) "a" = some p →
      p.IsHealthy = false →
      (updateResult [] "a" "d" 1 (some "boom") 3).2.ContiguousFailures =
        p.ContiguousFailures + 1 ∧
      (updateResult [] "a" "d" 1 (some "boom") 3).2.TimeOfFirstFailure =
        p.TimeOfFirstFailure)) :=
  have hinv : mapInv [] := fun k r h => by simp [lookupA] at h
  ⟨by simp, hinv,
    updateResult_streak_cases [] "a" "d" 1 (some "boom") 3 (by simp) hinv⟩

/-- Witness: the initial-result law evaluated for a concrete registration
with `InitiallyPassing` false. -/
theorem registerCheck_initial_result_concrete :
    (Config.mk (some ⟨"a", .ok "fine"⟩) false).Check = some ⟨"a", .ok "fine"⟩ ∧
    ("a" : String) ≠ "" ∧
    ∃ r, lookupA (RegisterCheck ⟨[], []⟩
        (Config.mk (some ⟨"a", .ok "fine"⟩) false) 0).2.results "a" = some r ∧
      ((Config.mk (some (Check.mk "a" (.ok "fine"))) false).InitiallyPassing =
          false → r.Error ≠ none) ∧
      ((Config.mk (some (Check.mk "a" (.ok "fine"))) false).InitiallyPassing =
          true → r.Error = none) :=
  ⟨rfl, by simp,
    registerCheck_initial_result ⟨[], []⟩ _ 0 ⟨"a", .ok "fine"⟩ rfl (by simp)⟩

/-- Witness: key-set matching evaluated on the empty registry for a
concrete registration and a concrete stop. -/
theorem keys_match_concrete :
    keysMatch ⟨[], []⟩ ∧
    (keysMatch (RegisterCheck ⟨[], []⟩
        (Config.mk (some ⟨"a", .ok "fine"⟩) true) 0).2 ∧
     keysMatch (stopCheckTask ⟨[], []⟩ "a") ∧
     lookupA (stopCheckTask (⟨[], []⟩ : HealthState) "a").results "a" = none ∧
     lookupA (stopCheckTask (⟨[], []⟩ : HealthState) "a").checkTasks "a" =
       none) :=
  have h : keysMatch ⟨[], []⟩ := fun k => rfl
  ⟨h, results_and_tasks_keys_match ⟨[], []⟩ _ 0 "a" h⟩

/-- Witness: fault containment evaluated for a concrete faulting check. -/
theorem fault_contained_concrete :
    (checkTask.mk ⟨"a", .fault "boom"⟩).check.ExecuteResult =
      .fault "boom" ∧
    ((runCheckOrStop ⟨[], []⟩ ⟨⟨"a", .fault "boom"⟩⟩ false 1 2).2 = true ∧
     ∃ r, lookupA (runCheckOrStop (⟨[], []⟩ : HealthState)
         ⟨⟨"a", .fault "boom"⟩⟩ false 1 2).1.results
         (checkTask.mk ⟨"a", .fault "boom"⟩).check.Name = some r ∧
       r.IsHealthy = false) :=
  ⟨rfl, fault_contained_as_failing_result ⟨[], []⟩ ⟨⟨"a", .fault "boom"⟩⟩
    1 2 "boom" rfl⟩

/-- Witness: duplicate-name registration evaluated on a registry already
holding a task for the name. -/
theorem duplicate_name_overwrites_concrete :
    (Config.mk (some ⟨"a", .ok "new"⟩) true).Check = some ⟨"a", .ok "new"⟩ ∧
    ("a" : String) ≠ "" ∧
    lookupA [("a", checkTask.mk ⟨"a", .ok "old"⟩)] "a" =
      some (checkTask.mk ⟨"a", .ok "old"⟩) ∧
    ((RegisterCheck ⟨[], [("a", ⟨⟨"a", .ok "old"⟩⟩)]⟩
        (Config.mk (some ⟨"a", .ok "new"⟩) true) 0).1 = none ∧
     lookupA (RegisterCheck (⟨[], [("a", ⟨⟨"a", .ok "old"⟩⟩)]⟩ : HealthState)
         (Config.mk (some ⟨"a", .ok "new"⟩) true) 0).2.checkTasks "a" =
       some { check := ⟨"a", .ok "new"⟩ }) :=
  ⟨rfl, by simp, by simp [lookupA],
    registerCheck_duplicate_name_overwrites ⟨[], [("a", ⟨⟨"a", .ok "old"⟩⟩)]⟩
      _ 0 ⟨"a", .ok "new"⟩ ⟨⟨"a", .ok "old"⟩⟩ rfl (by simp)
      (by simp [lookupA])⟩

/-- Witness: the sentinel-counts-in-streak law evaluated for a concrete
registration followed by a concrete failing execution. -/
theorem initial_sentinel_concrete :
    (Config.mk (some ⟨"a", .ok "fine"⟩) false).Check = some ⟨"a", .ok "fine"⟩ ∧
    ("a" : String) ≠ "" ∧
    (Config.mk (some (Check.mk "a" (.ok "fine"))) false).InitiallyPassing =
      false ∧
    lookupA ([] : List (String × Result)) "a" = none ∧
    (some "boom" ≠ (none : Option String)) ∧
    ∃ r, lookupA (RegisterCheck ⟨[], []⟩
        (Config.mk (some ⟨"a", .ok "fine"⟩) false) 10).2.results "a" =
        some r ∧
      r.ContiguousFailures = 1 ∧ r.TimeOfFirstFailure = some 10 ∧
      ∃ r2, lookupA (updateResult (RegisterCheck (⟨[], []⟩ : HealthState)
          (Config.mk (some ⟨"a", .ok "fine"⟩) false) 10).2.results
          "a" "x" 1 (some "boom") 20).1 "a" = some r2 ∧
        r2.ContiguousFailures = 2 ∧ r2.TimeOfFirstFailure = some 10 :=
  ⟨rfl, by simp, rfl, rfl, by simp,
    initial_sentinel_counts_in_streak ⟨[], []⟩ _ 10 ⟨"a", .ok "fine"⟩
      "x" 1 (some "boom") 20 rfl (by simp) rfl rfl (by simp)⟩

end GoSundheit
